import Mathlib

/-!
Verification development for the boot-to-kernel handoff path of PhipsOS.

The definitions below are shallow embeddings of the Rust sources:
* `ws/libs/util/src/paging.rs` — address types, page-table entry codec,
  `map_address_step`, `map_address`;
* `ws/libs/loader-lib/src/kernel_file.rs` — `KernelFile::check_elf`,
  `KernelFile::segments`;
* `ws/libs/loader-lib/src/lib.rs` — `setup_page_tables`;
* `ws/libs/kernel-lib/src/boot_information.rs` — `BootInformation`.

Machine integers are modelled as `Nat`; all values handled stay below
`2 ^ 64` so no wrap-around occurs on the modelled paths.  Rust functions
that can panic (assertion failures, out-of-bounds indexing) are modelled
as `Option`/`Except`-valued functions returning `none`/`.error` exactly
where the source panics or errors.
-/

namespace PhipsOS

/-! ## Constants from `ws/libs/util/src/paging.rs` and `ws/libs/util/src/lib.rs` -/

def PAGE_SIZE : Nat := 4096

def PAGE_MASK : Nat := 0xfff

def PAGE_BITS : Nat := 12

def LEVEL_BITS : Nat := 9

/-- `bit_ops::bitops_usize::create_mask(PAGE_BITS)`: the low 12 bits. -/
def PAGE_BITS_MASK : Nat := 2 ^ 12 - 1

/-- `bit_ops::bitops_usize::create_mask(LEVEL_BITS)`: the low 9 bits. -/
def LEVEL_BITS_MASK : Nat := 2 ^ 9 - 1

/-- `create_mask(52)`: maximum physical address with 4-level paging. -/
def LIMIT_MAX_PHYS_BITS : Nat := 2 ^ 52 - 1

/-- `!LIMIT_MAX_PHYS_BITS` evaluated in `u64`: bits 52..=63 set. -/
def NOT_LIMIT_MAX_PHYS_BITS_U64 : Nat := (2 ^ 12 - 1) <<< 52

/-- `util::sizes::TWO_MIB` -/
def TWO_MIB : Nat := 0x200000

/-- `util::sizes::ONE_GIB` -/
def ONE_GIB : Nat := 0x40000000

/-! ## `VirtAddress::index` (paging.rs lines 58-70)

The Rust method asserts `level > 0 && level <= 4`; the assertion failure is
modelled as `none`. -/

def VirtAddress.index (vaddr : Nat) (level : Nat) : Option Nat :=
  if 0 < level ∧ level ≤ 4 then
    some ((vaddr >>> ((level - 1) * LEVEL_BITS + PAGE_BITS)) &&& LEVEL_BITS_MASK)
  else none

/-! ## `PageTableEntryFlags` and the entry codec (paging.rs lines 84-182) -/

@[ext]
structure PageTableEntryFlags where
  present : Bool
  write : Bool
  superuser : Bool
  write_through : Bool
  cache_disable : Bool
  hugepage : Bool
  execute_disable : Bool
deriving DecidableEq, Repr

/-- `PageTableEntry::BIT_PRESENT = 1 << 0` -/
def BIT_PRESENT : Nat := 1 <<< 0

def BIT_WRITE : Nat := 1 <<< 1

def BIT_SUPERUSER : Nat := 1 <<< 2

def BIT_WRITE_THROUGH : Nat := 1 <<< 3

def BIT_CACHE_DISABLE : Nat := 1 <<< 4

def BIT_HUGEPAGE : Nat := 1 <<< 7

def BIT_EXECUTE_DISABLE : Nat := 1 <<< 63

/-- The flag bits OR-ed together by `PageTableEntry::new` before the address
is merged in (the execute-disable bit is OR-ed in last, after the address). -/
def flagBits (f : PageTableEntryFlags) : Nat :=
  (((((cond f.present BIT_PRESENT 0) ||| cond f.write BIT_WRITE 0) |||
    cond f.superuser BIT_SUPERUSER 0) ||| cond f.write_through BIT_WRITE_THROUGH 0) |||
    cond f.cache_disable BIT_CACHE_DISABLE 0) ||| cond f.hugepage BIT_HUGEPAGE 0

/-- The 64-bit value produced by `PageTableEntry::new` when its assertions pass. -/
def pteValue (addr : Nat) (f : PageTableEntryFlags) : Nat :=
  (flagBits f ||| addr) ||| cond f.execute_disable BIT_EXECUTE_DISABLE 0

/-- `PageTableEntry::new(addr, flags)`.  The two `assert_eq!`s (4 KiB
alignment, and no bits above the 52-bit physical limit) are modelled as the
guard; a failing assertion is `none`. -/
def PageTableEntry.new (addr : Nat) (f : PageTableEntryFlags) : Option Nat :=
  if addr &&& PAGE_BITS_MASK = 0 ∧ addr &&& NOT_LIMIT_MAX_PHYS_BITS_U64 = 0 then
    some (pteValue addr f)
  else none

/-- `PageTableEntry::flags`: pure bit decode. -/
def PageTableEntry.flags (v : Nat) : PageTableEntryFlags :=
  { present := decide (v &&& BIT_PRESENT ≠ 0)
    write := decide (v &&& BIT_WRITE ≠ 0)
    superuser := decide (v &&& BIT_SUPERUSER ≠ 0)
    write_through := decide (v &&& BIT_WRITE_THROUGH ≠ 0)
    cache_disable := decide (v &&& BIT_CACHE_DISABLE ≠ 0)
    hugepage := decide (v &&& BIT_HUGEPAGE ≠ 0)
    execute_disable := decide (v &&& BIT_EXECUTE_DISABLE ≠ 0) }

/-- The mask computed by `PageTableEntry::paddr`: the source takes
`len = BITS_PHYS_ADDR.end() - BITS_PHYS_ADDR.start() = 51 - 12 = 39`,
builds `create_mask(len)` and shifts it left by 12, so the mask covers
bits 12..=50 of the entry. -/
def PADDR_MASK : Nat := (2 ^ (51 - 12) - 1) <<< 12

/-- `PageTableEntry::paddr` -/
def PageTableEntry.paddr (v : Nat) : Nat := v &&& PADDR_MASK

/-! ## A page table: 512 entries (paging.rs lines 227-263) -/

abbrev PageTable := Fin 512 → Nat

def PageTable.ZERO : PageTable := fun _ => 0

/-! ## `map_address_step` (paging.rs lines 273-311)

The `assert!`s on the hugepage level and destination alignment, the level
assertion inside `VirtAddress::index`, and the assertions inside
`PageTableEntry::new` all become `none`. -/

def map_address_step (vaddr : Nat) (phys_src : PageTable) (phys_dest : Nat)
    (level : Nat) (write hugepage execute_disable : Bool) : Option PageTable :=
  if hugepage = true ∧ ¬(level = 2 ∨ level = 3) then none
  else if hugepage = true ∧ level = 2 ∧ ¬phys_dest % TWO_MIB = 0 then none
  else if hugepage = true ∧ level = 3 ∧ ¬phys_dest % ONE_GIB = 0 then none
  else
    match VirtAddress.index vaddr level with
    | none => none
    | some index =>
      if h : index < 512 then
        match PageTableEntry.new phys_dest
            ⟨true, write, true, false, false, hugepage, execute_disable⟩ with
        | none => none
        | some entry => some (Function.update phys_src ⟨index, h⟩ entry)
      else none

/-! ## Bit-level helper lemmas -/

theorem shiftLeft_one (n : Nat) : (1 <<< n : Nat) = 2 ^ n := by
  simp [Nat.shiftLeft_eq]

theorem and_two_pow_eq_zero_iff (x b : Nat) : x &&& 2 ^ b = 0 ↔ x.testBit b = false := by
  constructor
  · intro h
    by_contra hb
    have hb' : x.testBit b = true := by
      cases hx : x.testBit b
      · exact absurd hx hb
      · rfl
    have : (x &&& 2 ^ b).testBit b = true := by
      simp [Nat.testBit_and, hb', Nat.testBit_two_pow_self]
    rw [h] at this
    simp at this
  · intro h
    apply Nat.eq_of_testBit_eq
    intro i
    simp only [Nat.testBit_and, Nat.zero_testBit]
    rcases eq_or_ne b i with rfl | hbi
    · simp [h]
    · simp [Nat.testBit_two_pow_of_ne hbi]

theorem decide_and_two_pow_ne (x b : Nat) :
    decide (x &&& 2 ^ b ≠ 0) = x.testBit b := by
  cases h : x.testBit b
  · simp [(and_two_pow_eq_zero_iff x b).2 h]
  · have : x &&& 2 ^ b ≠ 0 := by
      intro hz
      rw [(and_two_pow_eq_zero_iff x b).1 hz] at h
      exact Bool.noConfusion h
    simp [this]

theorem cond_testBit (c : Bool) (n i : Nat) :
    (cond c n 0).testBit i = (c && n.testBit i) := by
  cases c <;> simp

/-- Bits below 12 of a 4 KiB-aligned value are clear. -/
theorem testBit_low_of_aligned {a : Nat} (h : a % 4096 = 0) {i : Nat} (hi : i < 12) :
    a.testBit i = false := by
  have hmod : a % 2 ^ 12 = 0 := by
    rw [show (2:Nat) ^ 12 = 4096 from by norm_num]
    exact h
  have h2 := Nat.testBit_mod_two_pow a 12 i
  rw [hmod, Nat.zero_testBit] at h2
  simpa [hi] using h2.symm

/-- Bits at or above position `n` of a value below `2 ^ n` are clear. -/
theorem testBit_high_of_lt {a n i : Nat} (h : a < 2 ^ n) (hi : n ≤ i) :
    a.testBit i = false :=
  Nat.testBit_lt_two_pow (Nat.lt_of_lt_of_le h (Nat.pow_le_pow_right (by norm_num) hi))

/-- Values below the 52-bit physical limit pass the second assertion of
`PageTableEntry::new`. -/
theorem and_not_limit_eq_zero {a : Nat} (h : a < 2 ^ 52) :
    a &&& NOT_LIMIT_MAX_PHYS_BITS_U64 = 0 := by
  apply Nat.eq_of_testBit_eq
  intro i
  simp only [NOT_LIMIT_MAX_PHYS_BITS_U64, Nat.testBit_and, Nat.zero_testBit,
    Nat.testBit_shiftLeft, Nat.testBit_two_pow_sub_one]
  rcases Nat.lt_or_ge i 52 with hi | hi
  · simp [Nat.not_le.2 hi]
  · simp [testBit_high_of_lt h hi]

/-- 4 KiB-aligned values pass the first assertion of `PageTableEntry::new`. -/
theorem and_page_bits_eq_zero {a : Nat} (h : a % 4096 = 0) :
    a &&& PAGE_BITS_MASK = 0 := by
  have h1 : a &&& PAGE_BITS_MASK = a % 2 ^ 12 := by
    rw [PAGE_BITS_MASK]
    exact Nat.and_pow_two_sub_one_eq_mod a 12
  rw [h1, show (2:Nat) ^ 12 = 4096 from by norm_num]
  exact h

/-- `PageTableEntry::new` succeeds on a 4 KiB-aligned address below the
52-bit physical limit. -/
theorem PageTableEntry.new_eq_some {a : Nat} (f : PageTableEntryFlags)
    (h4k : a % 4096 = 0) (hlim : a < 2 ^ 52) :
    PageTableEntry.new a f = some (pteValue a f) := by
  unfold PageTableEntry.new
  rw [if_pos ⟨and_page_bits_eq_zero h4k, and_not_limit_eq_zero hlim⟩]

/-- The flag bits of the low word at positions 0, 1, 2, 3, 4, 7, 63. -/
theorem flagBits_testBit (f : PageTableEntryFlags) :
    (flagBits f).testBit 0 = f.present ∧ (flagBits f).testBit 1 = f.write ∧
    (flagBits f).testBit 2 = f.superuser ∧ (flagBits f).testBit 3 = f.write_through ∧
    (flagBits f).testBit 4 = f.cache_disable ∧ (flagBits f).testBit 7 = f.hugepage ∧
    (flagBits f).testBit 63 = false := by
  obtain ⟨p, w, s, wt, cd, hp, xd⟩ := f
  cases p <;> cases w <;> cases s <;> cases wt <;> cases cd <;> cases hp <;> cases xd <;> decide

theorem flagBits_lt (f : PageTableEntryFlags) : flagBits f < 2 ^ 8 := by
  obtain ⟨p, w, s, wt, cd, hp, xd⟩ := f
  cases p <;> cases w <;> cases s <;> cases wt <;> cases cd <;> cases hp <;> cases xd <;> decide

theorem testBit_xd_ne (xd : Bool) {b : Nat} (hb : b ≠ 63) :
    (cond xd BIT_EXECUTE_DISABLE 0).testBit b = false := by
  cases xd
  · simp
  · show BIT_EXECUTE_DISABLE.testBit b = false
    rw [BIT_EXECUTE_DISABLE, shiftLeft_one]
    exact Nat.testBit_two_pow_of_ne (Ne.symm hb)

theorem testBit_xd_63 (xd : Bool) :
    (cond xd BIT_EXECUTE_DISABLE 0).testBit 63 = xd := by
  cases xd
  · simp
  · show BIT_EXECUTE_DISABLE.testBit 63 = true
    rw [BIT_EXECUTE_DISABLE, shiftLeft_one]
    exact Nat.testBit_two_pow_self

/-- Decoding the flags of a freshly built entry recovers the original flag
set, for any 4 KiB-aligned address below the 52-bit limit. -/
theorem flags_pteValue {a : Nat} (f : PageTableEntryFlags)
    (h4k : a % 4096 = 0) (hlim : a < 2 ^ 52) :
    PageTableEntry.flags (pteValue a f) = f := by
  have hv : ∀ b : Nat, b < 12 ∨ b = 63 →
      (pteValue a f).testBit b =
        ((flagBits f).testBit b ||
          (cond f.execute_disable BIT_EXECUTE_DISABLE 0).testBit b) := by
    intro b hb
    have ha : a.testBit b = false := by
      rcases hb with hb | rfl
      · exact testBit_low_of_aligned h4k hb
      · exact testBit_high_of_lt hlim (by norm_num)
    simp [pteValue, Nat.testBit_or, ha]
  have hfb := flagBits_testBit f
  refine PageTableEntryFlags.ext ?_ ?_ ?_ ?_ ?_ ?_ ?_
  · show decide (pteValue a f &&& BIT_PRESENT ≠ 0) = f.present
    rw [show BIT_PRESENT = 2 ^ 0 from shiftLeft_one 0, decide_and_two_pow_ne,
      hv 0 (Or.inl (by norm_num)), hfb.1, testBit_xd_ne _ (by norm_num), Bool.or_false]
  · show decide (pteValue a f &&& BIT_WRITE ≠ 0) = f.write
    rw [show BIT_WRITE = 2 ^ 1 from shiftLeft_one 1, decide_and_two_pow_ne,
      hv 1 (Or.inl (by norm_num)), hfb.2.1, testBit_xd_ne _ (by norm_num), Bool.or_false]
  · show decide (pteValue a f &&& BIT_SUPERUSER ≠ 0) = f.superuser
    rw [show BIT_SUPERUSER = 2 ^ 2 from shiftLeft_one 2, decide_and_two_pow_ne,
      hv 2 (Or.inl (by norm_num)), hfb.2.2.1, testBit_xd_ne _ (by norm_num), Bool.or_false]
  · show decide (pteValue a f &&& BIT_WRITE_THROUGH ≠ 0) = f.write_through
    rw [show BIT_WRITE_THROUGH = 2 ^ 3 from shiftLeft_one 3, decide_and_two_pow_ne,
      hv 3 (Or.inl (by norm_num)), hfb.2.2.2.1, testBit_xd_ne _ (by norm_num), Bool.or_false]
  · show decide (pteValue a f &&& BIT_CACHE_DISABLE ≠ 0) = f.cache_disable
    rw [show BIT_CACHE_DISABLE = 2 ^ 4 from shiftLeft_one 4, decide_and_two_pow_ne,
      hv 4 (Or.inl (by norm_num)), hfb.2.2.2.2.1, testBit_xd_ne _ (by norm_num), Bool.or_false]
  · show decide (pteValue a f &&& BIT_HUGEPAGE ≠ 0) = f.hugepage
    rw [show BIT_HUGEPAGE = 2 ^ 7 from shiftLeft_one 7, decide_and_two_pow_ne,
      hv 7 (Or.inl (by norm_num)), hfb.2.2.2.2.2.1, testBit_xd_ne _ (by norm_num), Bool.or_false]
  · show decide (pteValue a f &&& BIT_EXECUTE_DISABLE ≠ 0) = f.execute_disable
    rw [show BIT_EXECUTE_DISABLE = 2 ^ 63 from shiftLeft_one 63, decide_and_two_pow_ne,
      hv 63 (Or.inr rfl), hfb.2.2.2.2.2.2, testBit_xd_63, Bool.false_or]

/-- Decoding the physical address of a freshly built entry recovers the
original address whenever it is 4 KiB-aligned and below `2 ^ 51` (bit 51
itself is dropped by the source's mask, see `PADDR_MASK`). -/
theorem paddr_pteValue {a : Nat} (f : PageTableEntryFlags)
    (h4k : a % 4096 = 0) (hlim : a < 2 ^ 51) :
    PageTableEntry.paddr (pteValue a f) = a := by
  apply Nat.eq_of_testBit_eq
  intro i
  simp only [PageTableEntry.paddr, PADDR_MASK, Nat.testBit_and,
    Nat.testBit_shiftLeft, Nat.testBit_two_pow_sub_one]
  rcases Nat.lt_or_ge i 12 with hi | hi
  · simp [Nat.not_le.2 hi, testBit_low_of_aligned h4k hi]
  · rcases Nat.lt_or_ge i 51 with hi' | hi'
    · have hmask : (decide (12 ≤ i) && decide (i - 12 < 51 - 12)) = true := by
        simp only [Bool.and_eq_true, decide_eq_true_eq]
        omega
      rw [hmask, Bool.and_true]
      simp only [pteValue, Nat.testBit_or]
      rw [testBit_high_of_lt (flagBits_lt f) (by omega),
        testBit_xd_ne _ (by omega), Bool.false_or, Bool.or_false]
    · have ha : a.testBit i = false := testBit_high_of_lt hlim hi'
      rw [ha]
      have hmask : (decide (12 ≤ i) && decide (i - 12 < 51 - 12)) = false := by
        simp only [Bool.and_eq_false_iff, decide_eq_false_iff_not]
        omega
      rw [hmask, Bool.and_false]


/-- The slot selected by `map_address_step`: the virtual address's 9-bit
index at the given level, which is always below 512. -/
theorem and_level_mask_lt (x : Nat) : x &&& LEVEL_BITS_MASK < 512 :=
  Nat.lt_of_le_of_lt (Nat.and_le_right) (by norm_num [LEVEL_BITS_MASK])

def stepIndex (vaddr level : Nat) : Fin 512 :=
  ⟨(vaddr >>> ((level - 1) * LEVEL_BITS + PAGE_BITS)) &&& LEVEL_BITS_MASK,
    and_level_mask_lt _⟩

theorem index_eq_some (vaddr level : Nat) (h1 : 0 < level) (h4 : level ≤ 4) :
    VirtAddress.index vaddr level = some (stepIndex vaddr level).val := by
  simp [VirtAddress.index, h1, h4, stepIndex]

/-- `map_address_step` under its precondition: it writes exactly the
selected slot with the freshly encoded entry. -/
theorem map_address_step_eq_some (vaddr dest level : Nat) (pt : PageTable)
    (write hp xd : Bool)
    (h1 : 0 < level) (h4 : level ≤ 4) (h4k : dest % 4096 = 0) (hlim : dest < 2 ^ 52)
    (hhp : hp = true → (level = 2 ∧ dest % TWO_MIB = 0) ∨ (level = 3 ∧ dest % ONE_GIB = 0)) :
    map_address_step vaddr pt dest level write hp xd =
      some (Function.update pt (stepIndex vaddr level)
        (pteValue dest ⟨true, write, true, false, false, hp, xd⟩)) := by
  have hnew := PageTableEntry.new_eq_some
    (⟨true, write, true, false, false, hp, xd⟩ : PageTableEntryFlags) h4k hlim
  have hidx := index_eq_some vaddr level h1 h4
  have hg1 : ¬(hp = true ∧ ¬(level = 2 ∨ level = 3)) := by
    rintro ⟨hhp', hlev⟩
    rcases hhp hhp' with ⟨h2, _⟩ | ⟨h3, _⟩
    · exact hlev (Or.inl h2)
    · exact hlev (Or.inr h3)
  have hg2 : ¬(hp = true ∧ level = 2 ∧ ¬dest % TWO_MIB = 0) := by
    rintro ⟨hhp', hl2, hal⟩
    rcases hhp hhp' with ⟨_, hal'⟩ | ⟨h3, _⟩
    · exact hal hal'
    · rw [hl2] at h3; exact absurd h3 (by norm_num)
  have hg3 : ¬(hp = true ∧ level = 3 ∧ ¬dest % ONE_GIB = 0) := by
    rintro ⟨hhp', hl3, hal⟩
    rcases hhp hhp' with ⟨h2, _⟩ | ⟨_, hal'⟩
    · rw [hl3] at h2; exact absurd h2 (by norm_num)
    · exact hal hal'
  unfold map_address_step
  rw [if_neg hg1, if_neg hg2, if_neg hg3, hidx]
  simp only [hnew]
  rw [dif_pos (stepIndex vaddr level).isLt]


/-- **C4** — the claimed round-trip fails at the 4 KiB-aligned address
`2 ^ 51` (which is below the 52-bit limit, so `PageTableEntry::new`
accepts it): the encoded entry is exactly `2 ^ 51`, the flags decode back
to the original (empty) flag set, but `paddr()` returns `0` instead of
`2 ^ 51`, because the source computes the mask length as
`BITS_PHYS_ADDR.end() - BITS_PHYS_ADDR.start() = 39` and therefore masks
only bits 12..=50, dropping bit 51 of its own declared 12..=51 range. -/
theorem paddr_roundtrip_fails_at_bit51 :
    PageTableEntry.new (2 ^ 51) ⟨false, false, false, false, false, false, false⟩ =
      some (2 ^ 51) ∧
    PageTableEntry.flags (2 ^ 51) =
      ⟨false, false, false, false, false, false, false⟩ ∧
    PageTableEntry.paddr (2 ^ 51) = 0 ∧
    2 ^ 51 < 2 ^ 52 ∧ (2 ^ 51) % 4096 = 0 := by
  refine ⟨?_, ?_, ?_, by norm_num, by norm_num⟩
  · decide
  · decide
  · decide

/-- **C5** — `map_address_step` with `hugepage = true` fails its
precondition unless the level is 2 with a 2 MiB-aligned destination or 3
with a 1 GiB-aligned destination; in particular it always fails at level
1.  Under the precondition (including a 4 KiB-aligned destination below
the 52-bit physical limit, at a paging level in `[1, 4]`) it succeeds. -/
theorem map_address_step_hugepage_precondition (vaddr dest level : Nat)
    (pt : PageTable) (write xd : Bool) :
    (¬(level = 2 ∨ level = 3) → map_address_step vaddr pt dest level write true xd = none) ∧
    (dest % TWO_MIB ≠ 0 → map_address_step vaddr pt dest 2 write true xd = none) ∧
    (dest % ONE_GIB ≠ 0 → map_address_step vaddr pt dest 3 write true xd = none) ∧
    map_address_step vaddr pt dest 1 write true xd = none ∧
    (∀ hugepage : Bool, 0 < level → level ≤ 4 → dest % 4096 = 0 → dest < 2 ^ 52 →
      (hugepage = false ∨ (level = 2 ∧ dest % TWO_MIB = 0) ∨
        (level = 3 ∧ dest % ONE_GIB = 0)) →
      (map_address_step vaddr pt dest level write hugepage xd).isSome = true) := by
  refine ⟨?_, ?_, ?_, ?_, ?_⟩
  · intro h
    unfold map_address_step
    rw [if_pos ⟨rfl, h⟩]
  · intro h
    unfold map_address_step
    rw [if_neg (by simp), if_pos ⟨rfl, rfl, h⟩]
  · intro h
    unfold map_address_step
    rw [if_neg (by simp), if_neg (by simp), if_pos ⟨rfl, rfl, h⟩]
  · unfold map_address_step
    rw [if_pos ⟨rfl, by norm_num⟩]
  · intro hp h1 h4 h4k hlim hpre
    have hhp : hp = true →
        (level = 2 ∧ dest % TWO_MIB = 0) ∨ (level = 3 ∧ dest % ONE_GIB = 0) := by
      intro hhp'
      rcases hpre with h | h | h
      · rw [hhp'] at h; exact Bool.noConfusion h
      · exact Or.inl h
      · exact Or.inr h
    rw [map_address_step_eq_some vaddr dest level pt write hp xd h1 h4 h4k hlim hhp]
    rfl

/-- Witness for C5: at level 1 a hugepage mapping fails; at level 2 with a
2 MiB-aligned destination it succeeds. -/
theorem map_address_step_hugepage_precondition_witness :
    map_address_step 0xffffeeeedeadbeef PageTable.ZERO 0x200000 1 true true false = none ∧
    (map_address_step 0xffffeeeedeadbeef PageTable.ZERO 0x200000 2 true true false).isSome
      = true := by
  constructor
  · exact (map_address_step_hugepage_precondition 0xffffeeeedeadbeef 0x200000 2
      PageTable.ZERO true false).2.2.2.1
  · exact (map_address_step_hugepage_precondition 0xffffeeeedeadbeef 0x200000 2
      PageTable.ZERO true false).2.2.2.2 true (by norm_num) (by norm_num)
      (by norm_num) (by norm_num) (Or.inr (Or.inl ⟨rfl, by norm_num [TWO_MIB]⟩))

/-- **C9** — under its precondition, `map_address_step` overwrites exactly
the slot selected by the virtual address's index at the given level with a
freshly encoded entry (present, the given write/hugepage/execute-disable
flags, the given physical destination), leaves the other 511 slots
unchanged, and allocates nothing (the embedding is a pure function of the
table alone). -/
theorem map_address_step_frame (vaddr dest level : Nat) (pt : PageTable)
    (write hp xd : Bool)
    (h1 : 0 < level) (h4 : level ≤ 4) (h4k : dest % 4096 = 0) (hlim : dest < 2 ^ 52)
    (hhp : hp = true → (level = 2 ∧ dest % TWO_MIB = 0) ∨ (level = 3 ∧ dest % ONE_GIB = 0)) :
    ∃ e : Nat,
      PageTableEntry.new dest ⟨true, write, true, false, false, hp, xd⟩ = some e ∧
      VirtAddress.index vaddr level = some (stepIndex vaddr level).val ∧
      map_address_step vaddr pt dest level write hp xd =
        some (Function.update pt (stepIndex vaddr level) e) ∧
      Function.update pt (stepIndex vaddr level) e (stepIndex vaddr level) = e ∧
      (∀ j : Fin 512, j ≠ stepIndex vaddr level →
        Function.update pt (stepIndex vaddr level) e j = pt j) ∧
      (PageTableEntry.flags e).present = true ∧
      (PageTableEntry.flags e).write = write ∧
      (PageTableEntry.flags e).hugepage = hp ∧
      (PageTableEntry.flags e).execute_disable = xd := by
  refine ⟨pteValue dest ⟨true, write, true, false, false, hp, xd⟩,
    PageTableEntry.new_eq_some _ h4k hlim, index_eq_some vaddr level h1 h4,
    map_address_step_eq_some vaddr dest level pt write hp xd h1 h4 h4k hlim hhp,
    Function.update_same _ _ _, ?_, ?_, ?_, ?_, ?_⟩
  · intro j hj
    exact Function.update_noteq hj _ _
  · rw [flags_pteValue _ h4k hlim]
  · rw [flags_pteValue _ h4k hlim]
  · rw [flags_pteValue _ h4k hlim]
  · rw [flags_pteValue _ h4k hlim]

/-- Witness for C9 at a concrete input. -/
theorem map_address_step_frame_witness :
    ∃ e : Nat,
      PageTableEntry.new 0x1000 ⟨true, true, true, false, false, false, false⟩ = some e ∧
      VirtAddress.index 0xffffeeeedeadbeef 1 = some (stepIndex 0xffffeeeedeadbeef 1).val ∧
      map_address_step 0xffffeeeedeadbeef PageTable.ZERO 0x1000 1 true false false =
        some (Function.update PageTable.ZERO (stepIndex 0xffffeeeedeadbeef 1) e) ∧
      Function.update PageTable.ZERO (stepIndex 0xffffeeeedeadbeef 1) e
        (stepIndex 0xffffeeeedeadbeef 1) = e ∧
      (∀ j : Fin 512, j ≠ stepIndex 0xffffeeeedeadbeef 1 →
        Function.update PageTable.ZERO (stepIndex 0xffffeeeedeadbeef 1) e j =
          PageTable.ZERO j) ∧
      (PageTableEntry.flags e).present = true ∧
      (PageTableEntry.flags e).write = true ∧
      (PageTableEntry.flags e).hugepage = false ∧
      (PageTableEntry.flags e).execute_disable = false :=
  map_address_step_frame 0xffffeeeedeadbeef 0x1000 1 PageTable.ZERO true false false
    (by norm_num) (by norm_num) (by norm_num) (by norm_num)
    (by intro h; exact Bool.noConfusion h)


/-! ## `map_address` (paging.rs lines 313-403)

The recursive mapper reads and writes page tables through raw pointers
(`addr_to_page_table`, which asserts 4 KiB alignment of the address it
dereferences).  The loader runs identity-mapped, so the embedding uses one
flat address space: `MapState.mem` gives the page table stored at each
address, and `MapState.allocs`/`MapState.next` model the stream of
addresses that successive `Box::new(PageTable::ZERO)` allocations return.
The caller-supplied physical→virtual and virtual→physical translators are
the function parameters `pv` and `vp`. -/

structure MapState where
  mem : Nat → PageTable
  allocs : Nat → Nat
  next : Nat

def writeTable (mem : Nat → PageTable) (a : Nat) (t : PageTable) : Nat → PageTable :=
  fun x => if x = a then t else mem x

/-- The levels iterated by the preparation loop of `map_address`:
`((min_level + 1)..=4).rev()`. -/
def levelsToWalk (min_level : Nat) : List Nat :=
  (List.range' (min_level + 1) (4 - min_level)).reverse

/-- The preparation loop of `map_address`: walk one level per step from the
root downwards, following present entries through `pv` and allocating
fresh zeroed tables for absent ones.  Each `addr_to_page_table` alignment
assertion and each assertion inside `map_address_step` is `none`. -/
def mapWalk (vaddr : Nat) (pv vp : Nat → Nat) :
    List Nat → Nat → MapState → Option (Nat × MapState)
  | [], cur, st => some (cur, st)
  | level :: rest, cur, st =>
    match VirtAddress.index vaddr level with
    | none => none
    | some index =>
      if h : index < 512 then
        let entry := st.mem cur ⟨index, h⟩
        if (PageTableEntry.flags entry).present = true then
          let nextAddr := pv (PageTableEntry.paddr entry)
          if nextAddr % 4096 = 0 then
            mapWalk vaddr pv vp rest nextAddr st
          else none
        else
          let a := st.allocs st.next
          let mem1 := writeTable st.mem a PageTable.ZERO
          let paddr := vp a
          match map_address_step vaddr (mem1 cur) paddr level true false false with
          | none => none
          | some t =>
            if paddr % 4096 = 0 then
              mapWalk vaddr pv vp rest paddr ⟨writeTable mem1 cur t, st.allocs, st.next + 1⟩
            else none
      else none

/-- `map_address`: prepare the path with `mapWalk`, then perform the single
final `map_address_step` at the target level with the caller's policy. -/
def map_address (root_page_table : Option Nat) (cr3val : Nat) (vaddr phys_dest : Nat)
    (pv vp : Nat → Nat) (write execute l2_hugepage : Bool)
    (st : MapState) : Option MapState :=
  let min_level := if l2_hugepage then 2 else 1
  let root := root_page_table.getD cr3val
  let page_table := pv root
  if page_table % 4096 = 0 then
    match mapWalk vaddr pv vp (levelsToWalk min_level) page_table st with
    | none => none
    | some (cur, st1) =>
      match map_address_step vaddr (st1.mem cur) phys_dest min_level write
          l2_hugepage (!execute) with
      | none => none
      | some t => some ⟨writeTable st1.mem cur t, st1.allocs, st1.next⟩
  else none

/-- The walk behaviour asserted by the spec, one constructor per case of
§4.4: at each level the slot selected by the virtual address's index is
inspected; a present slot is followed through the physical→virtual
translator; an absent slot triggers allocation of a fresh zeroed page
table and the write of an intermediate entry that decodes to
present+writable, non-huge and executable (execute-disable clear) and
whose decoded physical address is the fresh table's physical address. -/
inductive ClaimWalk (vaddr : Nat) (pv vp : Nat → Nat) :
    List Nat → Nat → MapState → Nat → MapState → Prop where
  | nil (cur : Nat) (st : MapState) : ClaimWalk vaddr pv vp [] cur st cur st
  | present (level : Nat) (rest : List Nat) (cur : Nat) (st : MapState)
      (cur' : Nat) (st' : MapState) (idx : Fin 512)
      (hidx : VirtAddress.index vaddr level = some idx.val)
      (hpres : (PageTableEntry.flags (st.mem cur idx)).present = true)
      (hrec : ClaimWalk vaddr pv vp rest
        (pv (PageTableEntry.paddr (st.mem cur idx))) st cur' st') :
      ClaimWalk vaddr pv vp (level :: rest) cur st cur' st'
  | absent (level : Nat) (rest : List Nat) (cur : Nat) (st : MapState)
      (cur' : Nat) (st' : MapState) (idx : Fin 512) (a e : Nat)
      (hidx : VirtAddress.index vaddr level = some idx.val)
      (hpres : (PageTableEntry.flags (st.mem cur idx)).present = false)
      (ha : a = st.allocs st.next)
      (hentryPresent : (PageTableEntry.flags e).present = true)
      (hentryWrite : (PageTableEntry.flags e).write = true)
      (hentryHuge : (PageTableEntry.flags e).hugepage = false)
      (hentryXd : (PageTableEntry.flags e).execute_disable = false)
      (hentryDest : PageTableEntry.paddr e = vp a)
      (hrec : ClaimWalk vaddr pv vp rest (vp a)
        ⟨writeTable (writeTable st.mem a PageTable.ZERO) cur
          (Function.update (writeTable st.mem a PageTable.ZERO cur) idx e),
          st.allocs, st.next + 1⟩ cur' st') :
      ClaimWalk vaddr pv vp (level :: rest) cur st cur' st'

/-- The intermediate flag set written for absent slots. -/
theorem interFlags_decode {a : Nat} (h4k : a % 4096 = 0) (hlim : a < 2 ^ 51) :
    PageTableEntry.flags (pteValue a ⟨true, true, true, false, false, false, false⟩) =
      ⟨true, true, true, false, false, false, false⟩ ∧
    PageTableEntry.paddr (pteValue a ⟨true, true, true, false, false, false, false⟩) = a :=
  ⟨flags_pteValue _ h4k (Nat.lt_trans hlim (by norm_num)), paddr_pteValue _ h4k hlim⟩

/-- `mapWalk` always succeeds when the translators produce 4 KiB-aligned
addresses below `2 ^ 51`, and its run satisfies `ClaimWalk`. -/
theorem mapWalk_claimWalk (vaddr : Nat) (pv vp : Nat → Nat)
    (Hpv : ∀ x, pv x % 4096 = 0)
    (Hvp : ∀ x, vp x % 4096 = 0 ∧ vp x < 2 ^ 51) :
    ∀ levels : List Nat, (∀ l ∈ levels, 0 < l ∧ l ≤ 4) →
    ∀ cur st, ∃ cur' st',
      mapWalk vaddr pv vp levels cur st = some (cur', st') ∧
      ClaimWalk vaddr pv vp levels cur st cur' st'
  | [], _, cur, st => ⟨cur, st, rfl, ClaimWalk.nil cur st⟩
  | level :: rest, hlev, cur, st => by
    have hl := hlev level (List.mem_cons_self _ _)
    have hidx := index_eq_some vaddr level hl.1 hl.2
    have hrest : ∀ l ∈ rest, 0 < l ∧ l ≤ 4 := fun l hl' =>
      hlev l (List.mem_cons_of_mem _ hl')
    by_cases hpres :
        (PageTableEntry.flags (st.mem cur (stepIndex vaddr level))).present = true
    · obtain ⟨cur', st', hwalk, hclaim⟩ := mapWalk_claimWalk vaddr pv vp Hpv Hvp rest hrest
        (pv (PageTableEntry.paddr (st.mem cur (stepIndex vaddr level)))) st
      refine ⟨cur', st', ?_, ?_⟩
      · simp only [mapWalk, hidx]
        rw [dif_pos (stepIndex vaddr level).isLt]
        simp only [Fin.eta, hpres, if_true]
        rw [if_pos (Hpv _)]
        exact hwalk
      · exact ClaimWalk.present level rest cur st cur' st' (stepIndex vaddr level)
          hidx hpres hclaim
    · have hpres' :
          (PageTableEntry.flags (st.mem cur (stepIndex vaddr level))).present = false := by
        cases hx : (PageTableEntry.flags (st.mem cur (stepIndex vaddr level))).present
        · rfl
        · exact absurd hx hpres
      have hstep := map_address_step_eq_some vaddr (vp (st.allocs st.next)) level
        (writeTable st.mem (st.allocs st.next) PageTable.ZERO cur) true false false
        hl.1 hl.2 (Hvp (st.allocs st.next)).1
        (Nat.lt_trans (Hvp (st.allocs st.next)).2 (by norm_num))
        (fun h => Bool.noConfusion h)
      obtain ⟨cur', st', hwalk, hclaim⟩ := mapWalk_claimWalk vaddr pv vp Hpv Hvp rest hrest
        (vp (st.allocs st.next))
        ⟨writeTable (writeTable st.mem (st.allocs st.next) PageTable.ZERO) cur
          (Function.update (writeTable st.mem (st.allocs st.next) PageTable.ZERO cur)
            (stepIndex vaddr level)
            (pteValue (vp (st.allocs st.next))
              ⟨true, true, true, false, false, false, false⟩)),
          st.allocs, st.next + 1⟩
      have hdec := interFlags_decode (Hvp (st.allocs st.next)).1 (Hvp (st.allocs st.next)).2
      refine ⟨cur', st', ?_, ?_⟩
      · simp only [mapWalk, hidx]
        rw [dif_pos (stepIndex vaddr level).isLt]
        simp only [Fin.eta, hpres', Bool.false_eq_true, if_false, hstep]
        rw [if_pos (Hvp (st.allocs st.next)).1]
        exact hwalk
      · exact ClaimWalk.absent level rest cur st cur' st' (stepIndex vaddr level)
          (st.allocs st.next)
          (pteValue (vp (st.allocs st.next)) ⟨true, true, true, false, false, false, false⟩)
          hidx hpres' rfl (by rw [hdec.1]) (by rw [hdec.1]) (by rw [hdec.1])
          (by rw [hdec.1]) hdec.2 hclaim

/-- **C1** — `map_address` walks the tree from the root one level per step
down to the target level (2 when a 2 MiB huge page is requested, else 1):
the walk satisfies `ClaimWalk` (present slots are followed through the
physical→virtual translator, absent slots get a fresh zeroed table and an
intermediate entry decoding to present+writable, non-huge, executable and
pointing to the fresh table), and the single final `map_address_step` at
the target level writes an entry carrying exactly the caller's
write/huge-page policy with execute-disable set iff execute was not
requested. -/
theorem map_address_walks (root_page_table : Option Nat)
    (cr3val vaddr phys_dest : Nat) (pv vp : Nat → Nat)
    (write execute l2_hugepage : Bool) (st : MapState)
    (Hpv : ∀ x, pv x % 4096 = 0)
    (Hvp : ∀ x, vp x % 4096 = 0 ∧ vp x < 2 ^ 51)
    (Hd4k : phys_dest % 4096 = 0) (Hdlim : phys_dest < 2 ^ 52)
    (Hd2m : l2_hugepage = true → phys_dest % TWO_MIB = 0) :
    ∃ cur' st',
      mapWalk vaddr pv vp (levelsToWalk (if l2_hugepage then 2 else 1))
        (pv (root_page_table.getD cr3val)) st = some (cur', st') ∧
      ClaimWalk vaddr pv vp (levelsToWalk (if l2_hugepage then 2 else 1))
        (pv (root_page_table.getD cr3val)) st cur' st' ∧
      levelsToWalk (if l2_hugepage then 2 else 1) =
        (if l2_hugepage then [4, 3] else [4, 3, 2]) ∧
      ∃ e : Nat,
        PageTableEntry.new phys_dest
          ⟨true, write, true, false, false, l2_hugepage, !execute⟩ = some e ∧
        map_address root_page_table cr3val vaddr phys_dest pv vp write execute
            l2_hugepage st =
          some ⟨writeTable st'.mem cur'
            (Function.update (st'.mem cur')
              (stepIndex vaddr (if l2_hugepage then 2 else 1)) e),
            st'.allocs, st'.next⟩ ∧
        (PageTableEntry.flags e).present = true ∧
        (PageTableEntry.flags e).write = write ∧
        (PageTableEntry.flags e).hugepage = l2_hugepage ∧
        (PageTableEntry.flags e).execute_disable = !execute := by
  have hlevels : ∀ l ∈ levelsToWalk (if l2_hugepage then 2 else 1), 0 < l ∧ l ≤ 4 := by
    cases l2_hugepage <;> intro l hl <;>
      simp [levelsToWalk, List.range'] at hl <;> omega
  obtain ⟨cur', st', hwalk, hclaim⟩ := mapWalk_claimWalk vaddr pv vp Hpv Hvp
    (levelsToWalk (if l2_hugepage then 2 else 1)) hlevels
    (pv (root_page_table.getD cr3val)) st
  have hminpos : 0 < (if l2_hugepage then 2 else 1) := by cases l2_hugepage <;> norm_num
  have hmin4 : (if l2_hugepage then 2 else 1) ≤ 4 := by cases l2_hugepage <;> norm_num
  have hhp : l2_hugepage = true →
      ((if l2_hugepage then 2 else 1) = 2 ∧ phys_dest % TWO_MIB = 0) ∨
      ((if l2_hugepage then 2 else 1) = 3 ∧ phys_dest % ONE_GIB = 0) := by
    intro h
    rw [h]
    exact Or.inl ⟨rfl, Hd2m h⟩
  have hstep := map_address_step_eq_some vaddr phys_dest (if l2_hugepage then 2 else 1)
    (st'.mem cur') write l2_hugepage (!execute) hminpos hmin4 Hd4k Hdlim hhp
  refine ⟨cur', st', hwalk, hclaim, by cases l2_hugepage <;> rfl,
    pteValue phys_dest ⟨true, write, true, false, false, l2_hugepage, !execute⟩,
    PageTableEntry.new_eq_some _ Hd4k Hdlim, ?_, ?_, ?_, ?_, ?_⟩
  · unfold map_address
    rw [if_pos (Hpv _), hwalk]
    simp only [hstep]
  · rw [flags_pteValue _ Hd4k Hdlim]
  · rw [flags_pteValue _ Hd4k Hdlim]
  · rw [flags_pteValue _ Hd4k Hdlim]
  · rw [flags_pteValue _ Hd4k Hdlim]

/-- Witness for C1 at a concrete input (4 KiB mapping, constant aligned
translators, empty root table). -/
theorem map_address_walks_witness :
    ∃ cur' st',
      mapWalk 0xffffeeeedeadbeef (fun _ => 0x4000) (fun _ => 0x8000)
        (levelsToWalk (if false then 2 else 1))
        ((fun (_ : Nat) => 0x4000) ((some 0x1000).getD 0))
        ⟨fun _ => PageTable.ZERO, fun _ => 0x100000, 0⟩ = some (cur', st') ∧
      ClaimWalk 0xffffeeeedeadbeef (fun _ => 0x4000) (fun _ => 0x8000)
        (levelsToWalk (if false then 2 else 1))
        ((fun (_ : Nat) => 0x4000) ((some 0x1000).getD 0))
        ⟨fun _ => PageTable.ZERO, fun _ => 0x100000, 0⟩ cur' st' ∧
      levelsToWalk (if false then 2 else 1) = (if false then [4, 3] else [4, 3, 2]) ∧
      ∃ e : Nat,
        PageTableEntry.new 0x2000
          ⟨true, true, true, false, false, false, !true⟩ = some e ∧
        map_address (some 0x1000) 0 0xffffeeeedeadbeef 0x2000
            (fun _ => 0x4000) (fun _ => 0x8000) true true false
            ⟨fun _ => PageTable.ZERO, fun _ => 0x100000, 0⟩ =
          some ⟨writeTable st'.mem cur'
            (Function.update (st'.mem cur')
              (stepIndex 0xffffeeeedeadbeef (if false then 2 else 1)) e),
            st'.allocs, st'.next⟩ ∧
        (PageTableEntry.flags e).present = true ∧
        (PageTableEntry.flags e).write = true ∧
        (PageTableEntry.flags e).hugepage = false ∧
        (PageTableEntry.flags e).execute_disable = !true :=
  map_address_walks (some 0x1000) 0 0xffffeeeedeadbeef 0x2000
    (fun _ => 0x4000) (fun _ => 0x8000) true true false
    ⟨fun _ => PageTable.ZERO, fun _ => 0x100000, 0⟩
    (fun _ => by norm_num) (fun _ => ⟨by norm_num, by norm_num⟩)
    (by norm_num) (by norm_num) (fun h => Bool.noConfusion h)


/-! ## `KernelFile` (loader-lib/src/kernel_file.rs)

`ElfBytes::minimal_parse` comes from the external `elf` crate; it only
parses the ELF container and in particular does not bound-check segment
contents against the buffer.  A parsed image is therefore modelled by its
program-header table (`List ProgramHeader`) plus the byte-buffer length
where needed. -/

def PT_LOAD : Nat := 1

def PF_X : Nat := 1

def PF_W : Nat := 2

def PF_R : Nat := 4

/-- `KernelFile::EXPECTED_LINK_ADDR` -/
def EXPECTED_LINK_ADDR : Nat := 0xffffffff88200000

structure ProgramHeader where
  p_type : Nat
  p_flags : Nat
  p_offset : Nat
  p_vaddr : Nat
  p_filesz : Nat
  p_memsz : Nat
deriving DecidableEq, Repr

inductive KernelFileError where
  | InvalidElf
  | InvalidLoadSegments
deriving DecidableEq, Repr

/-- Rust `u64::next_multiple_of`: the smallest multiple of `m` that is
greater than or equal to `n` (for `m > 0`). -/
def next_multiple_of (n m : Nat) : Nat := (n + m - 1) / m * m

/-- `load_segments_iter`: the program headers of type `PT_LOAD`. -/
def loadSegments (hdrs : List ProgramHeader) : List ProgramHeader :=
  hdrs.filter (fun h => h.p_type == PT_LOAD)

/-- `KernelFile::check_elf` (kernel_file.rs lines 49-136), applied to the
parsed program-header table.  Note two peculiarities kept from the
source: the rx/rw class checks test `p_flags & (PF_R | PF_X) != 0`
(any overlap, not both bits), and the contiguity check computes
`pr_hdr.p_vaddr + pr_hdr_ne.p_filesz` — the *next* header's file size. -/
def check_elf (hdrs : List ProgramHeader) : Except KernelFileError Unit :=
  let ls := loadSegments hdrs
  let has_rx := ls.any (fun h => h.p_flags &&& (PF_R ||| PF_X) != 0)
  let has_rw := ls.any (fun h => h.p_flags &&& (PF_R ||| PF_W) != 0)
  let has_ro := ls.any (fun h => h.p_flags == PF_R)
  if (has_ro && has_rx && has_rw) = true then
    if ls.length = 3 then
      match ls with
      | [] => Except.error KernelFileError.InvalidLoadSegments
      | first :: _ =>
        if first.p_vaddr = EXPECTED_LINK_ADDR then
          if ls.any (fun h => !(h.p_vaddr % TWO_MIB == 0)) = true then
            Except.error KernelFileError.InvalidLoadSegments
          else if ls.any (fun h => h.p_filesz != h.p_memsz) = true then
            Except.error KernelFileError.InvalidLoadSegments
          else if (ls.zip (ls.drop 1)).any (fun p =>
              next_multiple_of (p.1.p_vaddr + p.2.p_filesz) TWO_MIB != p.2.p_vaddr) = true
            then Except.error KernelFileError.InvalidLoadSegments
          else Except.ok ()
        else Except.error KernelFileError.InvalidLoadSegments
    else Except.error KernelFileError.InvalidLoadSegments
  else Except.error KernelFileError.InvalidLoadSegments

/-- Modelled from the spec: an "execute+read" segment class. -/
def SpecIsRX (h : ProgramHeader) : Prop :=
  h.p_flags &&& PF_X ≠ 0 ∧ h.p_flags &&& PF_R ≠ 0

/-- Modelled from the spec: a "write+read" segment class. -/
def SpecIsRW (h : ProgramHeader) : Prop :=
  h.p_flags &&& PF_W ≠ 0 ∧ h.p_flags &&& PF_R ≠ 0

/-- Modelled from the spec: a "read-only" segment class. -/
def SpecIsRO (h : ProgramHeader) : Prop := h.p_flags = PF_R

instance (h : ProgramHeader) : Decidable (SpecIsRX h) :=
  decidable_of_iff (h.p_flags &&& PF_X ≠ 0 ∧ h.p_flags &&& PF_R ≠ 0) Iff.rfl

instance (h : ProgramHeader) : Decidable (SpecIsRW h) :=
  decidable_of_iff (h.p_flags &&& PF_W ≠ 0 ∧ h.p_flags &&& PF_R ≠ 0) Iff.rfl

instance (h : ProgramHeader) : Decidable (SpecIsRO h) :=
  decidable_of_iff (h.p_flags = PF_R) Iff.rfl

/-- Modelled from the spec: the §3 `KernelFile` invariants — exactly three
loadable segments covering the execute+read, write+read and read-only
classes, every loadable segment 2 MiB aligned with file size equal to
memory size, loadable segments virtually contiguous when each is rounded
up to a 2 MiB boundary, and the first loadable segment at the fixed link
address. -/
def Spec3Invariants (hdrs : List ProgramHeader) : Prop :=
  (loadSegments hdrs).length = 3 ∧
  (∃ h ∈ loadSegments hdrs, SpecIsRX h) ∧
  (∃ h ∈ loadSegments hdrs, SpecIsRW h) ∧
  (∃ h ∈ loadSegments hdrs, SpecIsRO h) ∧
  (∀ h ∈ loadSegments hdrs, h.p_vaddr % TWO_MIB = 0) ∧
  (∀ h ∈ loadSegments hdrs, h.p_filesz = h.p_memsz) ∧
  List.Chain' (fun a b => b.p_vaddr = next_multiple_of (a.p_vaddr + a.p_filesz) TWO_MIB)
    (loadSegments hdrs) ∧
  ((loadSegments hdrs).map ProgramHeader.p_vaddr).head? = some EXPECTED_LINK_ADDR

/-- A §3-valid image whose three loadable segments (RX of 4 MiB, RW of
2 MiB, RO of 2 MiB) are truly virtually contiguous when rounded up to
2 MiB.  The source's contiguity check pairs each header's address with the
*next* header's file size, so it rejects this image. -/
def c2Hdrs : List ProgramHeader :=
  [⟨1, 5, 0x1000, 0xffffffff88200000, 0x400000, 0x400000⟩,
   ⟨1, 6, 0x401000, 0xffffffff88600000, 0x200000, 0x200000⟩,
   ⟨1, 4, 0x601000, 0xffffffff88800000, 0x200000, 0x200000⟩]

/-- **C2** — a byte buffer whose parsed program headers satisfy all §3
segment invariants is nevertheless rejected with `InvalidLoadSegments`:
the contiguity check uses the next segment's file size instead of the
current one's, so any §3-valid image whose consecutive loadable segments
have different 2 MiB-rounded sizes fails `from_bytes`. -/
theorem check_elf_rejects_spec_valid_image :
    Spec3Invariants c2Hdrs ∧
    check_elf c2Hdrs = Except.error KernelFileError.InvalidLoadSegments := by
  constructor
  · refine ⟨by decide, by decide, by decide, by decide, by decide, by decide, ?_, by decide⟩
    · show List.Chain' _ _
      refine List.chain'_cons.2 ⟨by decide, List.chain'_cons.2 ⟨by decide, ?_⟩⟩
      exact List.chain'_singleton _
  · rfl

/-- An image whose three loadable segments are all read-only (`p_flags =
PF_R`), missing both the execute+read and the write+read class.  The
source's class checks test `p_flags & (PF_R | PF_X) != 0` and
`p_flags & (PF_R | PF_W) != 0`, which a read-only segment also passes. -/
def c3Hdrs : List ProgramHeader :=
  [⟨1, 4, 0, 0xffffffff88200000, 0x200000, 0x200000⟩,
   ⟨1, 4, 0, 0xffffffff88400000, 0x200000, 0x200000⟩,
   ⟨1, 4, 0, 0xffffffff88600000, 0x200000, 0x200000⟩]

/-- **C3** — an image missing the execute+read and write+read classes is
accepted by `check_elf` (and hence by `from_bytes`), contradicting the
claim that such images always yield `InvalidLoadSegments`. -/
theorem check_elf_accepts_missing_classes :
    (¬ ∃ h ∈ loadSegments c3Hdrs, SpecIsRX h) ∧
    (¬ ∃ h ∈ loadSegments c3Hdrs, SpecIsRW h) ∧
    check_elf c3Hdrs = Except.ok () := by
  refine ⟨by decide, by decide, rfl⟩

/-! ## `KernelFile::segments` (kernel_file.rs lines 149-181)

For each program header the source computes `segment_ptr = base +
p_offset` and a purported segment end `segment_ptr_end = segment_ptr +
p_offset` (the offset added again), asserts `segment_ptr_end` lies in
`base..base+len`, and then yields the slice `[p_offset, p_offset +
p_filesz)`.  A header with `p_offset = 0` yields the empty slice.  The
result pairs each header with `(slice start, slice length)` into the
buffer; a failed assertion is `none`. -/

def segmentSlices (bufLen : Nat) : List ProgramHeader → Option (List (ProgramHeader × Nat × Nat))
  | [] => some []
  | h :: rest =>
    let slice : Option (Nat × Nat) :=
      if h.p_offset ≠ 0 then
        if h.p_offset + h.p_offset < bufLen then some (h.p_offset, h.p_filesz) else none
      else some (0, 0)
    match slice with
    | none => none
    | some sl =>
      match segmentSlices bufLen rest with
      | none => none
      | some l => some ((h, sl) :: l)


/-- Loadable segments passing `check_elf`, each with `p_offset = 0x100`
and `p_filesz = 0x200000`, far larger than the 4096-byte buffer below. -/
def c6Hdrs : List ProgramHeader :=
  [⟨1, 5, 0x100, 0xffffffff88200000, 0x200000, 0x200000⟩,
   ⟨1, 6, 0x100, 0xffffffff88400000, 0x200000, 0x200000⟩,
   ⟨1, 4, 0x100, 0xffffffff88600000, 0x200000, 0x200000⟩]

/-- **C6** — a successfully constructed `KernelFile` (here: over a
4096-byte buffer, with `check_elf` passing) yields segment slices that
extend far beyond the buffer: the in-range assertion checks
`base + 2 * p_offset` instead of the slice end `base + p_offset +
p_filesz`, so every slice below escapes the buffer without tripping it. -/
theorem segments_slice_escapes_buffer :
    check_elf c6Hdrs = Except.ok () ∧
    segmentSlices 0x1000 c6Hdrs =
      some (c6Hdrs.map (fun h => (h, h.p_offset, h.p_filesz))) ∧
    ∀ h ∈ c6Hdrs, 0x1000 < h.p_offset + h.p_filesz := by
  refine ⟨rfl, rfl, by decide⟩


/-! ## `BootInformation` (kernel-lib/src/boot_information.rs) -/

def BOOT_INFO_MAGIC : Nat := 0xdeadbeef13371337

/-- `BootInformation::MAX_CMDLINE_LEN` -/
def MAX_CMDLINE_LEN : Nat := 4096

/-- The length of the `cmdline: [u8; 2048]` field. -/
def CMDLINE_BUFFER_LEN : Nat := 2048

/-- `size_of::<BootInformation>()` under `repr(C)`: magic(8) + version(4)
+ length(4) + cmdline_len(4) + cmdline(2048) + _pad1(4) + rsdp_addr(8) +
efi_system_table(8) + efi_image_handle(8) + _pad2(4) + mmap_n(4) +
mmap(1024 entries of 24 bytes); every field offset is already aligned, so
no compiler padding is inserted. -/
def BOOT_INFORMATION_SIZE : Nat := 8 + 4 + 4 + 4 + 2048 + 4 + 8 + 8 + 8 + 4 + 4 + 1024 * 24

structure BootInformation where
  magic : Nat
  version : Nat
  length : Nat
  cmdline_len : Nat
  cmdline : List Nat
  mmap_n : Nat
deriving DecidableEq, Repr

/-- `BootInformation::new`: copies the command-line bytes into the
2048-byte buffer (`cmdline_buffer[0..cmdline.len()].copy_from_slice(..)`
panics — `none` — when the command line exceeds the buffer), and sets
`cmdline_len` to `cmdline_buffer.len()`, i.e. always 2048. -/
def BootInformation.new (cmdline : List Nat) : Option BootInformation :=
  if cmdline.length ≤ CMDLINE_BUFFER_LEN then
    some { magic := BOOT_INFO_MAGIC, version := 1, length := BOOT_INFORMATION_SIZE,
           cmdline_len := CMDLINE_BUFFER_LEN,
           cmdline := cmdline ++ List.replicate (CMDLINE_BUFFER_LEN - cmdline.length) 0,
           mmap_n := 0 }
  else none

/-- Reading the command line back from a boot-information block: the first
`cmdline_len` bytes of the command-line buffer.  The struct is a plain
`repr(C)` view (zerocopy `IntoBytes`/`FromBytes`), so serializing and
re-parsing reproduce all fields verbatim and the parsed command line is
determined by `cmdline_len` and the buffer. -/
def BootInformation.parsedCmdline (b : BootInformation) : List Nat :=
  b.cmdline.take b.cmdline_len

/-- **C8** — the claimed round-trip fails twice: construction with a
command line of length 4096 (allowed by the claim since
`MAX_CMDLINE_LEN = 4096`) panics, because the buffer is only 2048 bytes;
and construction with the 2-byte command line `"hi"` succeeds with the
right magic and a total size below 2 MiB, but records `cmdline_len =
2048` (the buffer length, not the input length), so parsing back yields a
2048-byte command line, not the original. -/
theorem boot_information_cmdline_mismatch :
    BootInformation.new (List.replicate 4096 65) = none ∧
    4096 ≤ MAX_CMDLINE_LEN ∧
    ∃ b, BootInformation.new [104, 105] = some b ∧
      b.magic = BOOT_INFO_MAGIC ∧
      b.length = BOOT_INFORMATION_SIZE ∧
      BOOT_INFORMATION_SIZE ≤ TWO_MIB ∧
      b.cmdline_len = 2048 ∧
      b.parsedCmdline ≠ [104, 105] := by
  refine ⟨?_, by norm_num [MAX_CMDLINE_LEN], ?_⟩
  · have hlen : ¬((List.replicate 4096 65).length ≤ CMDLINE_BUFFER_LEN) := by
      rw [List.length_replicate]
      norm_num [CMDLINE_BUFFER_LEN]
    unfold BootInformation.new
    rw [if_neg hlen]
  · refine ⟨⟨BOOT_INFO_MAGIC, 1, BOOT_INFORMATION_SIZE, 2048,
      [104, 105] ++ List.replicate 2046 0, 0⟩, rfl, rfl, rfl,
      by norm_num [BOOT_INFORMATION_SIZE, TWO_MIB], rfl, ?_⟩
    intro h
    have hl := congrArg List.length h
    simp only [BootInformation.parsedCmdline, List.length_take, List.length_append,
      List.length_replicate, List.length_cons, List.length_nil] at hl
    omega


/-! ## `setup_page_tables` (loader-lib/src/lib.rs lines 48-181)

The function allocates fresh zeroed page tables (`pt_l4`, `pt_l3`,
`pt_l2`, and three trampoline tables); the physical addresses of those
boxes are the parameters `l3addr`, `l2addr`, `t3addr`, `t2addr`,
`t1addr`.  The 2 MiB-aligned destination buffer returned by
`AlignedBuffer::new(total_runtime_memsize, TWO_MIB)` starts at `dstBase`.
Each `map_address_step` performed for a LOAD segment is also recorded in
a trace (mirroring the source's per-segment debug log). -/

structure MapAction where
  vaddr : Nat
  dest : Nat
  level : Nat
  write : Bool
  hugepage : Bool
  execute_disable : Bool
deriving DecidableEq, Repr

/-- `KernelFile::total_runtime_memsize`: every LOAD segment's in-memory
size rounded up to 2 MiB, summed. -/
def total_runtime_memsize (hdrs : List ProgramHeader) : Nat :=
  ((loadSegments hdrs).map (fun h => next_multiple_of h.p_memsz TWO_MIB)).sum

/-- `KernelFile::virt_start`: the first LOAD segment's virtual address. -/
def virt_start (hdrs : List ProgramHeader) : Nat :=
  ((loadSegments hdrs).map ProgramHeader.p_vaddr).headD 0

/-- The length of the byte slice `KernelFile::segments` pairs with a
program header (kernel_file.rs lines 152-177): `p_filesz` bytes when
`p_offset != 0`, and the empty slice otherwise.  This is `data.len()`
in the segment loop of `setup_page_tables`, and the second component of
the pair computed by `segmentSlices`. -/
def dataLen (h : ProgramHeader) : Nat :=
  if h.p_offset ≠ 0 then h.p_filesz else 0

/-- The per-segment loop of `setup_page_tables`: copy the segment's data
slice to the next offset in the destination buffer (the slice indexing
bound is the guard `off + data.len() ≤ total`), assert the destination is
2 MiB aligned, perform one level-2 huge-page `map_address_step` with
write/execute taken from the segment's ELF flags, and advance the offset
by `data.len()` rounded up to 2 MiB.  The data length is `dataLen seg`,
not `p_filesz`: a segment with `p_offset = 0` contributes an empty
slice. -/
def segLoop (dstBase total : Nat) :
    List ProgramHeader → Nat → PageTable → List MapAction →
    Option (PageTable × Nat × List MapAction)
  | [], off, pt, tr => some (pt, off, tr)
  | seg :: rest, off, pt, tr =>
    if off + dataLen seg ≤ total then
      if (dstBase + off) % TWO_MIB = 0 then
        match map_address_step seg.p_vaddr pt (dstBase + off) 2
            (seg.p_flags &&& PF_W != 0) true (!(seg.p_flags &&& PF_X != 0)) with
        | none => none
        | some pt' =>
          segLoop dstBase total rest (off + next_multiple_of (dataLen seg) TWO_MIB) pt'
            (tr ++ [⟨seg.p_vaddr, dstBase + off, 2, seg.p_flags &&& PF_W != 0, true,
              !(seg.p_flags &&& PF_X != 0)⟩])
      else none
    else none

structure SetupResult where
  ptL4 : PageTable
  ptL3 : PageTable
  ptL2 : PageTable
  ptT3 : PageTable
  ptT2 : PageTable
  ptT1 : PageTable
  trace : List MapAction

/-- `setup_page_tables`: the two generic steps l4→l3 and l3→l2 for the
kernel's first virtual address, the per-segment huge-page loop, then the
trampoline: `panic!("l4 already present; unexpected")` (modelled `none`)
when the trampoline's level-4 slot is already present, otherwise an
explicit 4-level walk down to the 4 KiB page containing the trampoline. -/
def setup_page_tables (hdrs : List ProgramHeader) (trampoline_addr : Nat)
    (l3addr l2addr t3addr t2addr t1addr dstBase : Nat) : Option SetupResult :=
  match loadSegments hdrs with
  | [] => none
  | first :: _ =>
    let vaddr := first.p_vaddr
    match map_address_step vaddr PageTable.ZERO l3addr 4 true false false with
    | none => none
    | some ptL4 =>
      match map_address_step vaddr PageTable.ZERO l2addr 3 true false false with
      | none => none
      | some ptL3 =>
        match segLoop dstBase (total_runtime_memsize hdrs) (loadSegments hdrs)
            0 PageTable.ZERO [] with
        | none => none
        | some (ptL2, _, trace) =>
          match VirtAddress.index trampoline_addr 4 with
          | none => none
          | some l4idx =>
            if h : l4idx < 512 then
              if (PageTableEntry.flags (ptL4 ⟨l4idx, h⟩)).present = true then none
              else
                match map_address_step trampoline_addr ptL4 t3addr 4 false false false with
                | none => none
                | some ptL4' =>
                  match map_address_step trampoline_addr PageTable.ZERO t2addr 3
                      false false false with
                  | none => none
                  | some ptT3 =>
                    match map_address_step trampoline_addr PageTable.ZERO t1addr 2
                        false false false with
                    | none => none
                    | some ptT2 =>
                      match map_address_step trampoline_addr PageTable.ZERO
                          (trampoline_addr &&& (2 ^ 64 - 4096)) 1 false false false with
                      | none => none
                      | some ptT1 =>
                        some ⟨ptL4', ptL3, ptL2, ptT3, ptT2, ptT1, trace⟩
            else none

/-! ### Arithmetic helpers for the segment loop -/

theorem le_next_multiple_two_mib (n : Nat) : n ≤ next_multiple_of n TWO_MIB := by
  show n ≤ (n + TWO_MIB - 1) / TWO_MIB * TWO_MIB
  have hd := Nat.div_add_mod (n + TWO_MIB - 1) TWO_MIB
  have hr : (n + TWO_MIB - 1) % TWO_MIB < TWO_MIB := Nat.mod_lt _ (by norm_num [TWO_MIB])
  rw [show TWO_MIB = 0x200000 from rfl] at hd hr ⊢
  omega

theorem next_multiple_two_mib_mod (n : Nat) : next_multiple_of n TWO_MIB % TWO_MIB = 0 := by
  show (n + TWO_MIB - 1) / TWO_MIB * TWO_MIB % TWO_MIB = 0
  exact Nat.mul_mod_left _ _

theorem two_mib_le_next_multiple {n : Nat} (h : 0 < n) :
    TWO_MIB ≤ next_multiple_of n TWO_MIB := by
  have h1 := le_next_multiple_two_mib n
  have h2 : next_multiple_of n TWO_MIB % 0x200000 = 0 := next_multiple_two_mib_mod n
  have h3 := Nat.div_add_mod (next_multiple_of n TWO_MIB) 0x200000
  show 0x200000 ≤ next_multiple_of n TWO_MIB
  omega

theorem mod_4096_of_mod_two_mib {x : Nat} (h : x % TWO_MIB = 0) : x % 4096 = 0 := by
  have hd := Nat.mod_mod_of_dvd x (show (4096:Nat) ∣ TWO_MIB from by norm_num [TWO_MIB])
  rw [← hd, h]

theorem next_multiple_two_mib_mono {a b : Nat} (h : a ≤ b) :
    next_multiple_of a TWO_MIB ≤ next_multiple_of b TWO_MIB := by
  show (a + TWO_MIB - 1) / TWO_MIB * TWO_MIB ≤ (b + TWO_MIB - 1) / TWO_MIB * TWO_MIB
  exact Nat.mul_le_mul_right _ (Nat.div_le_div_right (by omega))

theorem dataLen_le (h : ProgramHeader) : dataLen h ≤ h.p_filesz := by
  unfold dataLen
  split
  · exact Nat.le_refl _
  · exact Nat.zero_le _

/-- The rounded-up data-slice lengths of a list of segments, summed: the
exact amount of destination-buffer offset the segment loop consumes. -/
def totalDataLen (segs : List ProgramHeader) : Nat :=
  (segs.map (fun h => next_multiple_of (dataLen h) TWO_MIB)).sum

/-- The mapping actions the claim predicts for the per-segment loop. -/
def traceOf (dstBase : Nat) : List ProgramHeader → Nat → List MapAction
  | [], _ => []
  | seg :: rest, off =>
    ⟨seg.p_vaddr, dstBase + off, 2, seg.p_flags &&& PF_W != 0, true,
      !(seg.p_flags &&& PF_X != 0)⟩ ::
      traceOf dstBase rest (off + next_multiple_of (dataLen seg) TWO_MIB)

/-- The segment loop succeeds whenever the buffer base is 2 MiB aligned
and the whole buffer lies below the 52-bit physical limit, and it
performs exactly the predicted actions. -/
theorem segLoop_spec (dstBase total : Nat) :
    ∀ (segs : List ProgramHeader) (off : Nat) (pt : PageTable) (tr : List MapAction),
    dstBase % TWO_MIB = 0 → off % TWO_MIB = 0 →
    off + totalDataLen segs ≤ total → dstBase + total < 2 ^ 52 →
    ∃ pt', segLoop dstBase total segs off pt tr =
      some (pt', off + totalDataLen segs, tr ++ traceOf dstBase segs off)
  | [], off, pt, tr, _, _, _, _ => ⟨pt, by simp [segLoop, totalDataLen, traceOf]⟩
  | seg :: rest, off, pt, tr, hb, hoff, htot, hlim => by
    have hb9 : dstBase % 0x200000 = 0 := hb
    have hoff9 : off % 0x200000 = 0 := hoff
    have hfs : next_multiple_of (dataLen seg) TWO_MIB + totalDataLen rest =
        totalDataLen (seg :: rest) := by
      simp [totalDataLen]
    have hle : off + dataLen seg ≤ total := by
      have := le_next_multiple_two_mib (dataLen seg)
      omega
    have halign : (dstBase + off) % TWO_MIB = 0 := by
      show (dstBase + off) % 0x200000 = 0
      omega
    have hlt : dstBase + off < 2 ^ 52 := by
      omega
    have hstep := map_address_step_eq_some seg.p_vaddr (dstBase + off) 2 pt
      (seg.p_flags &&& PF_W != 0) true (!(seg.p_flags &&& PF_X != 0))
      (by norm_num) (by norm_num) (mod_4096_of_mod_two_mib halign) hlt
      (fun _ => Or.inl ⟨rfl, halign⟩)
    have hoff' : (off + next_multiple_of (dataLen seg) TWO_MIB) % TWO_MIB = 0 := by
      have h2 : next_multiple_of (dataLen seg) TWO_MIB % 0x200000 = 0 :=
        next_multiple_two_mib_mod (dataLen seg)
      show (off + next_multiple_of (dataLen seg) TWO_MIB) % 0x200000 = 0
      omega
    have htot' : off + next_multiple_of (dataLen seg) TWO_MIB + totalDataLen rest ≤ total := by
      omega
    obtain ⟨pt', hrec⟩ := segLoop_spec dstBase total rest
      (off + next_multiple_of (dataLen seg) TWO_MIB)
      (Function.update pt (stepIndex seg.p_vaddr 2)
        (pteValue (dstBase + off)
          ⟨true, seg.p_flags &&& PF_W != 0, true, false, false, true,
            !(seg.p_flags &&& PF_X != 0)⟩))
      (tr ++ [⟨seg.p_vaddr, dstBase + off, 2, seg.p_flags &&& PF_W != 0, true,
        !(seg.p_flags &&& PF_X != 0)⟩]) hb hoff' htot' hlim
    refine ⟨pt', ?_⟩
    rw [segLoop, if_pos hle, if_pos halign]
    simp only [hstep]
    rw [hrec]
    simp [traceOf, totalDataLen, Nat.add_assoc]

theorem traceOf_length (dstBase : Nat) :
    ∀ (segs : List ProgramHeader) (off : Nat),
      (traceOf dstBase segs off).length = segs.length
  | [], _ => rfl
  | seg :: rest, off => by
    simp [traceOf, traceOf_length dstBase rest]

/-- Each recorded action pairs with its segment: same virtual address,
level 2, huge page, write bit iff the ELF write flag, execute-disable iff
the ELF execute flag is absent. -/
theorem traceOf_zip_props (dstBase : Nat) :
    ∀ (segs : List ProgramHeader) (off : Nat),
      ∀ p ∈ segs.zip (traceOf dstBase segs off),
        p.2.vaddr = p.1.p_vaddr ∧ p.2.level = 2 ∧ p.2.hugepage = true ∧
        p.2.write = (p.1.p_flags &&& PF_W != 0) ∧
        p.2.execute_disable = !(p.1.p_flags &&& PF_X != 0)
  | [], _, p, hp => absurd hp (by simp)
  | seg :: rest, off, p, hp => by
    simp only [traceOf, List.zip_cons_cons, List.mem_cons] at hp
    rcases hp with rfl | hp
    · exact ⟨rfl, rfl, rfl, rfl, rfl⟩
    · exact traceOf_zip_props dstBase rest _ p hp

/-- The destination offset advances by each segment's size rounded up to
2 MiB, whenever each segment's data slice has length `p_filesz` (i.e.
`p_offset ≠ 0`). -/
theorem traceOf_chain (dstBase : Nat) :
    ∀ (segs : List ProgramHeader) (off : Nat),
      (∀ h ∈ segs, dataLen h = h.p_filesz) →
      List.Chain' (fun p q : ProgramHeader × MapAction =>
        q.2.dest = p.2.dest + next_multiple_of p.1.p_filesz TWO_MIB)
        (segs.zip (traceOf dstBase segs off))
  | [], _, _ => by simp [traceOf]
  | [seg], off, _ => by simp [traceOf]
  | s1 :: s2 :: rest, off, hdl => by
    simp only [traceOf, List.zip_cons_cons]
    rw [List.chain'_cons]
    constructor
    · show dstBase + (off + next_multiple_of (dataLen s1) TWO_MIB) =
        dstBase + off + next_multiple_of s1.p_filesz TWO_MIB
      rw [hdl s1 (List.mem_cons_self _ _)]
      omega
    · have := traceOf_chain dstBase (s2 :: rest)
        (off + next_multiple_of (dataLen s1) TWO_MIB)
        (fun h hh => hdl h (List.mem_cons_of_mem _ hh))
      simpa [traceOf, List.zip_cons_cons] using this

theorem traceOf_dest_ge (dstBase : Nat) :
    ∀ (segs : List ProgramHeader) (off : Nat),
      ∀ a ∈ traceOf dstBase segs off, dstBase + off ≤ a.dest
  | [], _, a, ha => absurd ha (by simp [traceOf])
  | seg :: rest, off, a, ha => by
    simp only [traceOf, List.mem_cons] at ha
    rcases ha with rfl | ha
    · exact Nat.le_refl _
    · have := traceOf_dest_ge dstBase rest
        (off + next_multiple_of (dataLen seg) TWO_MIB) a ha
      omega

/-- With every segment's yielded data slice nonempty, the 2 MiB
huge-page destinations of the recorded actions are pairwise separated by
at least 2 MiB. -/
theorem traceOf_pairwise (dstBase : Nat) :
    ∀ (segs : List ProgramHeader) (off : Nat),
      (∀ h ∈ segs, 0 < dataLen h) →
      List.Pairwise (fun a b : MapAction => a.dest + TWO_MIB ≤ b.dest)
        (traceOf dstBase segs off)
  | [], _, _ => by simp [traceOf]
  | seg :: rest, off, hpos => by
    simp only [traceOf]
    refine List.Pairwise.cons ?_
      (traceOf_pairwise dstBase rest _ (fun h hh => hpos h (List.mem_cons_of_mem _ hh)))
    intro b hb
    have h1 := traceOf_dest_ge dstBase rest
      (off + next_multiple_of (dataLen seg) TWO_MIB) b hb
    have h2 := two_mib_le_next_multiple (hpos seg (List.mem_cons_self _ _))
    show dstBase + off + TWO_MIB ≤ b.dest
    omega

/-- What a passing `check_elf` guarantees: three LOAD segments, file size
equal to memory size for each of them. -/
theorem check_elf_ok_facts {hdrs : List ProgramHeader}
    (h : check_elf hdrs = Except.ok ()) :
    (loadSegments hdrs).length = 3 ∧
    ∀ hh ∈ loadSegments hdrs, hh.p_filesz = hh.p_memsz := by
  unfold check_elf at h
  dsimp only at h
  split at h
  case isFalse => exact absurd h (by simp)
  case isTrue hc1 =>
    split at h
    case isFalse => exact absurd h (by simp)
    case isTrue hlen =>
      split at h
      · exact absurd h (by simp)
      · rename_i first restls heq
        split at h
        case isFalse => exact absurd h (by simp)
        case isTrue hlink =>
          split at h
          case isTrue => exact absurd h (by simp)
          case isFalse halign =>
            split at h
            case isTrue => exact absurd h (by simp)
            case isFalse hfm =>
              refine ⟨hlen, ?_⟩
              intro hh hmem
              rw [Bool.not_eq_true, List.any_eq_false] at hfm
              have := hfm hh hmem
              simpa using this


/-- `trampoline_addr & !(PAGE_MASK as u64)` clears the low 12 bits: for
addresses below the 52-bit limit it equals `2 ^ 12 * (addr / 2 ^ 12)`. -/
theorem and_high_mask_eq (x : Nat) (hx : x < 2 ^ 52) :
    x &&& (2 ^ 64 - 4096) = 2 ^ 12 * (x / 2 ^ 12) := by
  have h1 : (2 ^ 64 - 4096 : Nat) = (2 ^ 52 - 1) <<< 12 := by
    rw [Nat.shiftLeft_eq]
    norm_num
  have h2 : 2 ^ 12 * (x / 2 ^ 12) = (x >>> 12) <<< 12 := by
    rw [Nat.shiftLeft_eq, Nat.shiftRight_eq_div_pow]
    ring
  rw [h1, h2]
  apply Nat.eq_of_testBit_eq
  intro i
  simp only [Nat.testBit_and, Nat.testBit_shiftLeft, Nat.testBit_shiftRight,
    Nat.testBit_two_pow_sub_one]
  rcases Nat.lt_or_ge i 12 with hi | hi
  · simp [Nat.not_le.2 hi]
  · have h12 : 12 + (i - 12) = i := by omega
    rw [h12]
    rcases Nat.lt_or_ge i 64 with hi' | hi'
    · simp [hi, show i - 12 < 52 by omega]
    · simp [testBit_high_of_lt hx (show 52 ≤ i by omega)]

/-- The permissive intermediate flag set (`write = true`) used for the
kernel's l4→l3 and l3→l2 entries. -/
def permRW : PageTableEntryFlags := ⟨true, true, true, false, false, false, false⟩

/-- The restrictive flag set (`write = false`) used for the trampoline
chain. -/
def permRO : PageTableEntryFlags := ⟨true, false, true, false, false, false, false⟩

/-- Full run of `setup_page_tables`: with aligned box addresses below the
physical limit, an aligned destination buffer and file sizes equal to
memory sizes, the run panics exactly when the trampoline's level-4 index
collides with the kernel's, and otherwise produces the six tables and the
segment trace. -/
theorem setup_page_tables_run (hdrs : List ProgramHeader)
    (tramp l3a l2a t3a t2a t1a dstBase : Nat)
    (first : ProgramHeader) (restls : List ProgramHeader)
    (hls : loadSegments hdrs = first :: restls)
    (hfm : ∀ hh ∈ loadSegments hdrs, hh.p_filesz = hh.p_memsz)
    (hb : dstBase % TWO_MIB = 0)
    (hlim : dstBase + total_runtime_memsize hdrs < 2 ^ 52)
    (hl3 : l3a % 4096 = 0) (hl3l : l3a < 2 ^ 52)
    (hl2 : l2a % 4096 = 0) (hl2l : l2a < 2 ^ 52)
    (ht3 : t3a % 4096 = 0) (ht3l : t3a < 2 ^ 52)
    (ht2 : t2a % 4096 = 0) (ht2l : t2a < 2 ^ 52)
    (ht1 : t1a % 4096 = 0) (ht1l : t1a < 2 ^ 52)
    (htr : tramp < 2 ^ 52) :
    (stepIndex tramp 4 = stepIndex first.p_vaddr 4 →
      setup_page_tables hdrs tramp l3a l2a t3a t2a t1a dstBase = none) ∧
    (stepIndex tramp 4 ≠ stepIndex first.p_vaddr 4 →
      ∃ pt2 : PageTable,
        setup_page_tables hdrs tramp l3a l2a t3a t2a t1a dstBase = some
          ⟨Function.update
              (Function.update PageTable.ZERO (stepIndex first.p_vaddr 4)
                (pteValue l3a permRW))
              (stepIndex tramp 4) (pteValue t3a permRO),
            Function.update PageTable.ZERO (stepIndex first.p_vaddr 3)
              (pteValue l2a permRW),
            pt2,
            Function.update PageTable.ZERO (stepIndex tramp 3) (pteValue t2a permRO),
            Function.update PageTable.ZERO (stepIndex tramp 2) (pteValue t1a permRO),
            Function.update PageTable.ZERO (stepIndex tramp 1)
              (pteValue (tramp &&& (2 ^ 64 - 4096)) permRO),
            traceOf dstBase (first :: restls) 0⟩) := by
  have hkv4 := map_address_step_eq_some first.p_vaddr l3a 4 PageTable.ZERO
    true false false (by norm_num) (by norm_num) hl3 hl3l (fun h => Bool.noConfusion h)
  have hkv3 := map_address_step_eq_some first.p_vaddr l2a 3 PageTable.ZERO
    true false false (by norm_num) (by norm_num) hl2 hl2l (fun h => Bool.noConfusion h)
  have htot : totalDataLen (loadSegments hdrs) ≤ total_runtime_memsize hdrs := by
    unfold totalDataLen total_runtime_memsize
    refine List.sum_le_sum ?_
    intro hh hmem
    exact next_multiple_two_mib_mono
      (Nat.le_trans (dataLen_le hh) (Nat.le_of_eq (hfm hh hmem)))
  obtain ⟨pt2, hseg⟩ := segLoop_spec dstBase (total_runtime_memsize hdrs)
    (loadSegments hdrs) 0 PageTable.ZERO [] hb (by norm_num)
    (by rw [Nat.zero_add]; exact htot) hlim
  rw [Nat.zero_add, List.nil_append] at hseg
  rw [hls] at hseg
  have hidxT := index_eq_some tramp 4 (by norm_num) (by norm_num)
  have htp := and_high_mask_eq tramp htr
  have htp4k : (tramp &&& (2 ^ 64 - 4096)) % 4096 = 0 := by
    rw [htp]
    exact Nat.mul_mod_right _ _
  have htple : tramp &&& (2 ^ 64 - 4096) ≤ tramp := Nat.and_le_left
  have htplim : tramp &&& (2 ^ 64 - 4096) < 2 ^ 52 := Nat.lt_of_le_of_lt htple htr
  constructor
  · intro heq
    unfold setup_page_tables
    rw [hls]
    simp only [hkv4, hkv3, hseg, hidxT]
    rw [dif_pos (stepIndex tramp 4).isLt]
    have hpresent : (PageTableEntry.flags
        (Function.update PageTable.ZERO (stepIndex first.p_vaddr 4)
          (pteValue l3a ⟨true, true, true, false, false, false, false⟩)
          (stepIndex tramp 4))).present = true := by
      rw [heq, Function.update_same, flags_pteValue _ hl3 hl3l]
    simp only [Fin.eta]
    rw [if_pos hpresent]
  · intro hne
    have hstep3 := map_address_step_eq_some tramp t3a 4
      (Function.update PageTable.ZERO (stepIndex first.p_vaddr 4)
        (pteValue l3a ⟨true, true, true, false, false, false, false⟩))
      false false false (by norm_num) (by norm_num) ht3 ht3l (fun h => Bool.noConfusion h)
    have hstep4 := map_address_step_eq_some tramp t2a 3 PageTable.ZERO
      false false false (by norm_num) (by norm_num) ht2 ht2l (fun h => Bool.noConfusion h)
    have hstep5 := map_address_step_eq_some tramp t1a 2 PageTable.ZERO
      false false false (by norm_num) (by norm_num) ht1 ht1l (fun h => Bool.noConfusion h)
    have hstep6 := map_address_step_eq_some tramp (tramp &&& (2 ^ 64 - 4096)) 1
      PageTable.ZERO false false false (by norm_num) (by norm_num) htp4k htplim
      (fun h => Bool.noConfusion h)
    have hnotpres : ¬ (PageTableEntry.flags
        (Function.update PageTable.ZERO (stepIndex first.p_vaddr 4)
          (pteValue l3a ⟨true, true, true, false, false, false, false⟩)
          (stepIndex tramp 4))).present = true := by
      rw [Function.update_noteq hne]
      show ¬ (PageTableEntry.flags 0).present = true
      decide
    refine ⟨pt2, ?_⟩
    unfold setup_page_tables
    rw [hls]
    simp only [hkv4, hkv3, hseg, hidxT]
    rw [dif_pos (stepIndex tramp 4).isLt]
    simp only [Fin.eta]
    rw [if_neg hnotpres]
    simp only [hstep3, hstep4, hstep5, hstep6]
    rfl


/-- **C10** — after the kernel mappings, the root table has exactly the
kernel's level-4 slot present; `setup_page_tables` panics with
"l4 already present; unexpected" exactly when the trampoline address's
level-4 index equals that slot, and otherwise maps the trampoline through
a fresh explicit 4-level walk (all entries non-huge) ending in a 4 KiB
page at the trampoline's own page-aligned address. -/
theorem setup_page_tables_trampoline_guard
    (hdrs : List ProgramHeader) (tramp l3a l2a t3a t2a t1a dstBase : Nat)
    (hcheck : check_elf hdrs = Except.ok ())
    (hb : dstBase % TWO_MIB = 0)
    (hlim : dstBase + total_runtime_memsize hdrs < 2 ^ 52)
    (hl3 : l3a % 4096 = 0) (hl3l : l3a < 2 ^ 52)
    (hl2 : l2a % 4096 = 0) (hl2l : l2a < 2 ^ 52)
    (ht3 : t3a % 4096 = 0) (ht3l : t3a < 2 ^ 52)
    (ht2 : t2a % 4096 = 0) (ht2l : t2a < 2 ^ 52)
    (ht1 : t1a % 4096 = 0) (ht1l : t1a < 2 ^ 52)
    (htr : tramp < 2 ^ 52) :
    (stepIndex tramp 4 = stepIndex (virt_start hdrs) 4 →
      setup_page_tables hdrs tramp l3a l2a t3a t2a t1a dstBase = none) ∧
    (stepIndex tramp 4 ≠ stepIndex (virt_start hdrs) 4 →
      ∃ r, setup_page_tables hdrs tramp l3a l2a t3a t2a t1a dstBase = some r ∧
        r.ptL4 (stepIndex tramp 4) = pteValue t3a permRO ∧
        (PageTableEntry.flags (r.ptL4 (stepIndex tramp 4))).present = true ∧
        r.ptT3 (stepIndex tramp 3) = pteValue t2a permRO ∧
        r.ptT2 (stepIndex tramp 2) = pteValue t1a permRO ∧
        r.ptT1 (stepIndex tramp 1) = pteValue (tramp &&& (2 ^ 64 - 4096)) permRO ∧
        (PageTableEntry.flags (r.ptT1 (stepIndex tramp 1))).hugepage = false ∧
        (tramp &&& (2 ^ 64 - 4096)) % 4096 = 0 ∧
        tramp &&& (2 ^ 64 - 4096) = 2 ^ 12 * (tramp / 2 ^ 12)) := by
  obtain ⟨hlen, hfm⟩ := check_elf_ok_facts hcheck
  obtain ⟨a, b, c, hls⟩ := List.length_eq_three.1 hlen
  have hvs : virt_start hdrs = a.p_vaddr := by
    unfold virt_start
    rw [hls]
    rfl
  have hrun := setup_page_tables_run hdrs tramp l3a l2a t3a t2a t1a dstBase a [b, c]
    hls hfm hb hlim hl3 hl3l hl2 hl2l ht3 ht3l ht2 ht2l ht1 ht1l htr
  have htp := and_high_mask_eq tramp htr
  have htp4k : (tramp &&& (2 ^ 64 - 4096)) % 4096 = 0 := by
    rw [htp]
    exact Nat.mul_mod_right _ _
  have htplim : tramp &&& (2 ^ 64 - 4096) < 2 ^ 52 :=
    Nat.lt_of_le_of_lt Nat.and_le_left htr
  constructor
  · intro heq
    exact hrun.1 (by rw [← hvs]; exact heq)
  · intro hne
    obtain ⟨pt2, hsome⟩ := hrun.2 (by rw [← hvs]; exact hne)
    have hL4 : (PageTableEntry.flags (Function.update
        (Function.update PageTable.ZERO (stepIndex a.p_vaddr 4) (pteValue l3a permRW))
        (stepIndex tramp 4) (pteValue t3a permRO) (stepIndex tramp 4))).present = true := by
      rw [Function.update_same,
        show permRO = ⟨true, false, true, false, false, false, false⟩ from rfl,
        flags_pteValue _ ht3 ht3l]
    have hT1 : (PageTableEntry.flags (Function.update PageTable.ZERO (stepIndex tramp 1)
        (pteValue (tramp &&& (2 ^ 64 - 4096)) permRO)
        (stepIndex tramp 1))).hugepage = false := by
      rw [Function.update_same,
        show permRO = ⟨true, false, true, false, false, false, false⟩ from rfl,
        flags_pteValue _ htp4k htplim]
    exact ⟨_, hsome, Function.update_same _ _ _, hL4, Function.update_same _ _ _,
      Function.update_same _ _ _, Function.update_same _ _ _, hT1, htp4k, htp⟩

/-- Witness for C10 at a concrete validated image and trampoline. -/
theorem setup_page_tables_trampoline_guard_witness :
    (stepIndex 0x7000 4 = stepIndex (virt_start c6Hdrs) 4 →
      setup_page_tables c6Hdrs 0x7000 0x1000 0x2000 0x3000 0x4000 0x5000 0x200000 = none) ∧
    (stepIndex 0x7000 4 ≠ stepIndex (virt_start c6Hdrs) 4 →
      ∃ r, setup_page_tables c6Hdrs 0x7000 0x1000 0x2000 0x3000 0x4000 0x5000 0x200000 =
          some r ∧
        r.ptL4 (stepIndex 0x7000 4) = pteValue 0x3000 permRO ∧
        (PageTableEntry.flags (r.ptL4 (stepIndex 0x7000 4))).present = true ∧
        r.ptT3 (stepIndex 0x7000 3) = pteValue 0x4000 permRO ∧
        r.ptT2 (stepIndex 0x7000 2) = pteValue 0x5000 permRO ∧
        r.ptT1 (stepIndex 0x7000 1) = pteValue (0x7000 &&& (2 ^ 64 - 4096)) permRO ∧
        (PageTableEntry.flags (r.ptT1 (stepIndex 0x7000 1))).hugepage = false ∧
        (0x7000 &&& (2 ^ 64 - 4096)) % 4096 = 0 ∧
        0x7000 &&& (2 ^ 64 - 4096) = 2 ^ 12 * (0x7000 / 2 ^ 12)) :=
  setup_page_tables_trampoline_guard c6Hdrs 0x7000 0x1000 0x2000 0x3000 0x4000 0x5000
    0x200000 rfl (by norm_num [TWO_MIB]) (by decide) (by norm_num) (by norm_num)
    (by norm_num) (by norm_num) (by norm_num) (by norm_num) (by norm_num) (by norm_num)
    (by norm_num) (by norm_num) (by norm_num)

/-- **C7** (amended: provided every loadable segment yields nonempty
data, i.e. `p_offset ≠ 0` and `p_filesz > 0` — `segments()` pairs a
header whose `p_offset` is 0 with the empty slice, so such a segment
copies nothing and advances the offset by 0) — for a validated kernel
file, `setup_page_tables` performs, in file order, one level-2 huge-page
mapping step per loadable segment, with the write bit iff the segment's
ELF write flag and execute-disable iff the execute flag is absent; the
destination offset advances by each segment's size rounded up to 2 MiB,
and the 2 MiB destinations are pairwise disjoint. -/
theorem setup_page_tables_segment_policy
    (hdrs : List ProgramHeader) (tramp l3a l2a t3a t2a t1a dstBase : Nat)
    (hcheck : check_elf hdrs = Except.ok ())
    (hpos : ∀ h ∈ loadSegments hdrs, h.p_offset ≠ 0 ∧ 0 < h.p_filesz)
    (hb : dstBase % TWO_MIB = 0)
    (hlim : dstBase + total_runtime_memsize hdrs < 2 ^ 52)
    (hl3 : l3a % 4096 = 0) (hl3l : l3a < 2 ^ 52)
    (hl2 : l2a % 4096 = 0) (hl2l : l2a < 2 ^ 52)
    (ht3 : t3a % 4096 = 0) (ht3l : t3a < 2 ^ 52)
    (ht2 : t2a % 4096 = 0) (ht2l : t2a < 2 ^ 52)
    (ht1 : t1a % 4096 = 0) (ht1l : t1a < 2 ^ 52)
    (htr : tramp < 2 ^ 52)
    (hne : stepIndex tramp 4 ≠ stepIndex (virt_start hdrs) 4) :
    ∃ r, setup_page_tables hdrs tramp l3a l2a t3a t2a t1a dstBase = some r ∧
      r.trace = traceOf dstBase (loadSegments hdrs) 0 ∧
      r.trace.length = (loadSegments hdrs).length ∧
      (∀ p ∈ (loadSegments hdrs).zip r.trace,
        p.2.vaddr = p.1.p_vaddr ∧ p.2.level = 2 ∧ p.2.hugepage = true ∧
        p.2.write = (p.1.p_flags &&& PF_W != 0) ∧
        p.2.execute_disable = !(p.1.p_flags &&& PF_X != 0)) ∧
      List.Chain' (fun p q : ProgramHeader × MapAction =>
        q.2.dest = p.2.dest + next_multiple_of p.1.p_filesz TWO_MIB)
        ((loadSegments hdrs).zip r.trace) ∧
      List.Pairwise (fun a b : MapAction => a.dest + TWO_MIB ≤ b.dest) r.trace := by
  obtain ⟨hlen, hfm⟩ := check_elf_ok_facts hcheck
  obtain ⟨a, b, c, hls⟩ := List.length_eq_three.1 hlen
  have hvs : virt_start hdrs = a.p_vaddr := by
    unfold virt_start
    rw [hls]
    rfl
  have hrun := setup_page_tables_run hdrs tramp l3a l2a t3a t2a t1a dstBase a [b, c]
    hls hfm hb hlim hl3 hl3l hl2 hl2l ht3 ht3l ht2 ht2l ht1 ht1l htr
  obtain ⟨pt2, hsome⟩ := hrun.2 (by rw [← hvs]; exact hne)
  have hdl : ∀ h ∈ (a :: [b, c]), dataLen h = h.p_filesz := by
    intro h hh
    rw [← hls] at hh
    unfold dataLen
    rw [if_pos (hpos h hh).1]
  have hdlpos : ∀ h ∈ (a :: [b, c]), 0 < dataLen h := by
    intro h hh
    rw [hdl h hh]
    rw [← hls] at hh
    exact (hpos h hh).2
  refine ⟨_, hsome, ?_, ?_, ?_, ?_, ?_⟩
  · show traceOf dstBase (a :: [b, c]) 0 = traceOf dstBase (loadSegments hdrs) 0
    rw [hls]
  · show (traceOf dstBase (a :: [b, c]) 0).length = (loadSegments hdrs).length
    rw [hls, traceOf_length]
  · show ∀ p ∈ (loadSegments hdrs).zip (traceOf dstBase (a :: [b, c]) 0), _
    rw [hls]
    exact traceOf_zip_props dstBase (a :: [b, c]) 0
  · show List.Chain' _ ((loadSegments hdrs).zip (traceOf dstBase (a :: [b, c]) 0))
    rw [hls]
    exact traceOf_chain dstBase (a :: [b, c]) 0 hdl
  · show List.Pairwise _ (traceOf dstBase (a :: [b, c]) 0)
    exact traceOf_pairwise dstBase (a :: [b, c]) 0 hdlpos

/-- Witness for the amended C7 at a concrete validated image with
nonempty segments. -/
theorem setup_page_tables_segment_policy_witness :
    ∃ r, setup_page_tables c6Hdrs 0x7000 0x1000 0x2000 0x3000 0x4000 0x5000 0x200000 =
        some r ∧
      r.trace = traceOf 0x200000 (loadSegments c6Hdrs) 0 ∧
      r.trace.length = (loadSegments c6Hdrs).length ∧
      (∀ p ∈ (loadSegments c6Hdrs).zip r.trace,
        p.2.vaddr = p.1.p_vaddr ∧ p.2.level = 2 ∧ p.2.hugepage = true ∧
        p.2.write = (p.1.p_flags &&& PF_W != 0) ∧
        p.2.execute_disable = !(p.1.p_flags &&& PF_X != 0)) ∧
      List.Chain' (fun p q : ProgramHeader × MapAction =>
        q.2.dest = p.2.dest + next_multiple_of p.1.p_filesz TWO_MIB)
        ((loadSegments c6Hdrs).zip r.trace) ∧
      List.Pairwise (fun a b : MapAction => a.dest + TWO_MIB ≤ b.dest) r.trace :=
  setup_page_tables_segment_policy c6Hdrs 0x7000 0x1000 0x2000 0x3000 0x4000 0x5000
    0x200000 rfl (by decide) (by norm_num [TWO_MIB]) (by decide) (by norm_num)
    (by norm_num) (by norm_num) (by norm_num) (by norm_num) (by norm_num) (by norm_num)
    (by norm_num) (by norm_num) (by norm_num) (by norm_num) (by decide)

/-- A kernel image accepted by `check_elf` (which never inspects
`p_offset`) whose three loadable segments all have `p_offset = 0`: RX,
RW and RO of 2 MiB each at the link address onwards.  `segments()` pairs
each of them with the empty slice. -/
def c7Hdrs : List ProgramHeader :=
  [⟨1, 5, 0, 0xffffffff88200000, 0x200000, 0x200000⟩,
   ⟨1, 6, 0, 0xffffffff88400000, 0x200000, 0x200000⟩,
   ⟨1, 4, 0, 0xffffffff88600000, 0x200000, 0x200000⟩]

/-- **C7** (counterexample to the claim as stated) — on this validated
kernel file every segment's data slice is empty (`p_offset = 0`), so the
destination offset never advances and all three segments receive the
*same* 2 MiB huge-page destination `0x200000`: their destinations
overlap, even though every `p_filesz` is positive. -/
theorem setup_page_tables_overlapping_destinations :
    check_elf c7Hdrs = Except.ok () ∧
    Option.map (fun r => r.trace.map MapAction.dest)
      (setup_page_tables c7Hdrs 0x7000 0x1000 0x2000 0x3000 0x4000 0x5000 0x200000) =
      some [0x200000, 0x200000, 0x200000] :=
  ⟨rfl, rfl⟩

end PhipsOS
